import Mathlib

/-!
Verification of the core claims about the spade Delaunay triangulation
engine.  The geometric predicates are a shallow embedding of
`src/delaunay_core/math.rs`, the handle arithmetic embeds
`src/delaunay_core/handles/handle_impls.rs`, and the insertion, location
and legalization procedures embed `src/delaunay/delaunay_basic.rs`.
Scalars are modelled by the integers, one of the instantiations the
scalar contract admits: the `robust` crate guarantees the exact sign of
every determinant, which over ℤ is the sign of the exact value.
State-mutating DCEL primitives that live outside the provided sources are
taken as parameters or modelled from the specification, as noted at each
definition.
-/

/-- A two dimensional point, embedding `Point2<S>` with the scalar `S`
instantiated by the integers. -/
structure Point2 where
  x : ℤ
  y : ℤ
deriving DecidableEq

/-- Exact value whose sign `robust::orient2d` computes: the determinant
`(b.x - a.x)(c.y - a.y) - (b.y - a.y)(c.x - a.x)` from the specification;
positive exactly when `c` lies to the left of the directed line `a → b`. -/
def orient2d (a b c : Point2) : ℤ :=
  (b.x - a.x) * (c.y - a.y) - (b.y - a.y) * (c.x - a.x)

/-- Modelled from the spec: the repository's `LineSideInfo` type (it lives in
`lib.rs`, outside the provided sources): `orient2d(a, b, c) ∈
{LEFT, ON_LINE, RIGHT}`. -/
inductive LineSideInfo where
  | leftSide
  | rightSide
  | onLine
deriving DecidableEq

/-- Modelled from the spec: classification of the exact determinant sign,
as in `LineSideInfo::from_determinant`. -/
def LineSideInfo.from_determinant (d : ℤ) : LineSideInfo :=
  if d < 0 then .rightSide else if 0 < d then .leftSide else .onLine

def LineSideInfo.is_on_left_side : LineSideInfo → Bool
  | .leftSide => true
  | _ => false

def LineSideInfo.is_on_right_side : LineSideInfo → Bool
  | .rightSide => true
  | _ => false

def LineSideInfo.is_on_line : LineSideInfo → Bool
  | .onLine => true
  | _ => false

def LineSideInfo.is_on_left_side_or_on_line (s : LineSideInfo) : Bool :=
  s.is_on_left_side || s.is_on_line

def LineSideInfo.is_on_right_side_or_on_line (s : LineSideInfo) : Bool :=
  s.is_on_right_side || s.is_on_line

/-- Modelled from the spec: `LineSideInfo::reversed` swaps left and right and
fixes the on-line case (the side of a point flips when the edge is reversed). -/
def LineSideInfo.reversed : LineSideInfo → LineSideInfo
  | .leftSide => .rightSide
  | .rightSide => .leftSide
  | .onLine => .onLine

/-- Embedding of `math::side_query`: classify `query_point` against the
directed line `p1 → p2` by the exact sign of `robust::orient2d`. -/
def side_query (p1 p2 query_point : Point2) : LineSideInfo :=
  .from_determinant (orient2d p1 p2 query_point)

/-- Embedding of `math::is_ordered_ccw`. -/
def is_ordered_ccw (p1 p2 query_point : Point2) : Bool :=
  (side_query p1 p2 query_point).is_on_left_side_or_on_line

/-- Exact value whose sign `robust::incircle(a, b, c, d)` computes: the
lifted 4×4 determinant with rows `a`, `b`, `c`, `d`, written in the
translated 3×3 form used by the robust predicates.  It is positive exactly
when `d` lies strictly inside the circle through `a`, `b`, `c` taken in
counterclockwise order. -/
def incircleDet (a b c d : Point2) : ℤ :=
  let adx := a.x - d.x
  let ady := a.y - d.y
  let bdx := b.x - d.x
  let bdy := b.y - d.y
  let cdx := c.x - d.x
  let cdy := c.y - d.y
  (adx * adx + ady * ady) * (bdx * cdy - cdx * bdy) +
    (bdx * bdx + bdy * bdy) * (cdx * ady - adx * cdy) +
    (cdx * cdx + cdy * cdy) * (adx * bdy - bdx * ady)

/-- Embedding of `math::contained_in_circumference`: the source swaps `v1`
and `v3` before calling `robust::incircle` and tests for a negative sign,
so that, for `v1 v2 v3` ordered counterclockwise, the result is `true`
exactly when `p` is strictly inside the circumcircle. -/
def contained_in_circumference (v1 v2 v3 p : Point2) : Bool :=
  decide (incircleDet v3 v2 v1 p < 0)

/-- Scaled squared distance of the point `v` from the rational point
`(ox / ow, oy / ow)`, cleared of denominators: it equals `ow ^ 2` times
the squared euclidean distance.  Over the integer scalar this represents
an arbitrary circle with rational center — in particular the circumcircle
of any non-degenerate integer triangle, whose center is always rational. -/
def distScaled (ow ox oy : ℤ) (v : Point2) : ℤ :=
  (ow * v.x - ox) * (ow * v.x - ox) + (ow * v.y - oy) * (ow * v.y - oy)

/-- Cofactor expansion of the lifted determinant along its lifted column:
an identity valid for every choice of the auxiliary circle data. -/
lemma incircleDet_cofactor (a b c p : Point2) (ow ox oy : ℤ) :
    ow ^ 2 * incircleDet a b c p =
      orient2d b c p * distScaled ow ox oy a -
        orient2d a c p * distScaled ow ox oy b +
        orient2d a b p * distScaled ow ox oy c -
        orient2d a b c * distScaled ow ox oy p := by
  unfold incircleDet orient2d distScaled
  ring

/-- The alternating sum of the three orientation cofactors collapses to the
orientation of the triangle itself. -/
lemma orient2d_cofactor_sum (a b c p : Point2) :
    orient2d b c p - orient2d a c p + orient2d a b p = orient2d a b c := by
  unfold orient2d
  ring

/-- When `a`, `b`, `c` lie on the circle with center `(ox / ow, oy / ow)`
and scaled squared radius `r2` (i.e. `r2 / ow ^ 2`), the lifted determinant
factors through the orientation and the signed power of the query point
with respect to that circle. -/
lemma incircleDet_circum (a b c p : Point2) (ow ox oy r2 : ℤ)
    (h1 : distScaled ow ox oy a = r2) (h2 : distScaled ow ox oy b = r2)
    (h3 : distScaled ow ox oy c = r2) :
    ow ^ 2 * incircleDet a b c p =
      orient2d a b c * (r2 - distScaled ow ox oy p) := by
  rw [incircleDet_cofactor a b c p ow ox oy, h1, h2, h3]
  have hs := orient2d_cofactor_sum a b c p
  linear_combination r2 * hs

/-- Reversing the first and the third argument negates the orientation. -/
lemma orient2d_rev (a b c : Point2) : orient2d c b a = -orient2d a b c := by
  unfold orient2d
  ring

/-- Embedding of `math::PointProjection<S>` over an arbitrary ordered scalar
field, keeping the two private fields of the source. -/
structure PointProjection (S : Type) where
  factor : S
  length_2 : S

/-- Embedding of `PointProjection::is_before_edge`: `factor < 0`. -/
def PointProjection.is_before_edge {S : Type} [LinearOrderedField S]
    (s : PointProjection S) : Bool :=
  decide (s.factor < 0)

/-- Embedding of `PointProjection::is_after_edge`: `factor > length_2`. -/
def PointProjection.is_after_edge {S : Type} [LinearOrderedField S]
    (s : PointProjection S) : Bool :=
  decide (s.factor > s.length_2)

/-- Embedding of `PointProjection::is_on_edge`. -/
def PointProjection.is_on_edge {S : Type} [LinearOrderedField S]
    (s : PointProjection S) : Bool :=
  !s.is_before_edge && !s.is_after_edge

/-- Embedding of `PointProjection::reversed`: the factor becomes
`length_2 - factor` while the squared length is kept. -/
def PointProjection.reversed {S : Type} [LinearOrderedField S]
    (s : PointProjection S) : PointProjection S :=
  ⟨s.length_2 - s.factor, s.length_2⟩

/-- Embedding of `FixedDirectedEdgeHandle`: a plain index. -/
structure FixedDirectedEdgeHandle where
  index : Nat
deriving DecidableEq

/-- Embedding of `FixedUndirectedEdgeHandle`: a plain index. -/
structure FixedUndirectedEdgeHandle where
  index : Nat
deriving DecidableEq

/-- Embedding of `FixedDirectedEdgeHandle::new_normalized`. -/
def FixedDirectedEdgeHandle.new_normalized (index : Nat) : FixedDirectedEdgeHandle :=
  ⟨index <<< 1⟩

/-- Embedding of `FixedDirectedEdgeHandle::is_normalized`:
`index & 0x1 == 0x0`. -/
def FixedDirectedEdgeHandle.is_normalized (e : FixedDirectedEdgeHandle) : Bool :=
  e.index &&& 1 == 0

/-- Embedding of `FixedDirectedEdgeHandle::rev`: flip the last bit. -/
def FixedDirectedEdgeHandle.rev (e : FixedDirectedEdgeHandle) : FixedDirectedEdgeHandle :=
  ⟨e.index ^^^ 1⟩

/-- Embedding of `FixedDirectedEdgeHandle::as_undirected`: drop the last bit. -/
def FixedDirectedEdgeHandle.as_undirected (e : FixedDirectedEdgeHandle) :
    FixedUndirectedEdgeHandle :=
  ⟨e.index >>> 1⟩

/-- Embedding of `FixedUndirectedEdgeHandle::as_directed`. -/
def FixedUndirectedEdgeHandle.as_directed (u : FixedUndirectedEdgeHandle) :
    FixedDirectedEdgeHandle :=
  .new_normalized u.index

/-- Modelled from the spec: one half-edge record of the DCEL storage
(`dcel.rs` is not among the provided sources); it stores the origin vertex,
the next and previous half-edges around the incident face, and that face,
exactly the fields the navigation in `handle_impls.rs` reads. -/
structure HalfEdgeEntry where
  origin : Nat
  next : Nat
  prev : Nat
  face : Nat
deriving DecidableEq

/-- Modelled from the spec: the DCEL storage is an arena of half-edge
records indexed by the directed-edge id. -/
structure Dcel where
  halfEdges : List HalfEdgeEntry

/-- Modelled from the spec: fetch a half-edge record by directed id. -/
def Dcel.half_edge (d : Dcel) (e : Nat) : HalfEdgeEntry :=
  d.halfEdges.getD e ⟨0, 0, 0, 0⟩

/-- Embedding of `DirectedEdgeHandle::is_outer_edge`: the incident face is
the single outer face, whose fixed handle is `0`
(`dcel_operations::OUTER_FACE_HANDLE`). -/
def Dcel.is_outer_edge (d : Dcel) (e : Nat) : Bool :=
  (d.half_edge e).face == 0

/-- Embedding of `DirectedEdgeHandle::opposite_vertex`: `None` when the
edge's own incident face is the outer face, otherwise the origin of the
previous half-edge around that face. -/
def Dcel.opposite_vertex (d : Dcel) (e : Nat) : Option Nat :=
  if d.is_outer_edge e then none
  else some (d.half_edge (d.half_edge e).prev).origin

/-- The possible answers of point location, embedding
`PositionInTriangulation` over fixed handles. -/
inductive PositionInTriangulation where
  | inTriangle (f : Nat)
  | outsideConvexHull (e : Nat)
  | onPoint (v : Nat)
  | onEdge (e : Nat)
  | noTriangulationPresent
deriving DecidableEq

/-- Outcome of running `locate_with_hint_fixed`: a located position, the
panic of the `expect` on an isolated start vertex, the panic of the
`assert!` at the head of the loop, or exhaustion of the step budget. -/
inductive LocateOutcome where
  | found (p : PositionInTriangulation)
  | isolatedStart
  | assertViolation
  | fuelExhausted
deriving DecidableEq

/-- Discriminator for the assertion-failure outcome. -/
def LocateOutcome.is_assert_violation : LocateOutcome → Bool
  | .assertViolation => true
  | _ => false

/-- Modelled from the spec: the read-only DCEL navigation used by the
walking locate (the DCEL arena itself is not among the provided sources).
`sym`, `onext` and `oprev` navigate directed edges, `face` gives the fixed
handle of the face to the left, `fromId` the origin vertex of an edge,
`vpos` a vertex's position, and `outEdge` the stored outgoing edge of a
vertex (none when the vertex is isolated). -/
structure WalkEnv where
  outEdge : Nat → Option Nat
  sym : Nat → Nat
  onext : Nat → Nat
  oprev : Nat → Nat
  face : Nat → Nat
  fromId : Nat → Nat
  vpos : Nat → Point2

/-- Position of the origin of a directed edge, as `edge.from().position()`. -/
def WalkEnv.fromPos (env : WalkEnv) (e : Nat) : Point2 :=
  env.vpos (env.fromId e)

/-- Embedding of `to_simple_edge` followed by `side_query`: classify
`point` against the directed line from `edge.from()` to `edge.to()`
(`to()` is the origin of the reversed edge). -/
def WalkEnv.edgeSideQuery (env : WalkEnv) (e : Nat) (point : Point2) : LineSideInfo :=
  side_query (env.fromPos e) (env.fromPos (env.sym e)) point

/-- Embedding of the walking loop of `locate_with_hint_fixed`.  Each
iteration consumes one unit of fuel; the `assert!` at the head of the loop
becomes the explicit outcome `assertViolation`.  The outer-face branch that
merely flips to the twin falls through into the rest of the same
iteration, exactly as the source does. -/
def locateLoop (env : WalkEnv) (point : Point2) :
    Nat → Nat → LineSideInfo → LocateOutcome
  | 0, _, _ => .fuelExhausted
  | fuel + 1, curEdge, curQuery =>
    if curQuery.is_on_left_side_or_on_line then
      match
        (if env.face curEdge = 0 then
          (if curQuery.is_on_line then some (env.sym curEdge) else none)
        else some curEdge) with
      | none => .found (.outsideConvexHull curEdge)
      | some e =>
        if env.fromPos e = point then .found (.onPoint (env.fromId e))
        else
          let next := env.onext e
          if env.fromPos next = point then .found (.onPoint (env.fromId (env.sym e)))
          else
            let nextQuery := env.edgeSideQuery next point
            if nextQuery.is_on_right_side_or_on_line then
              locateLoop env point fuel (env.sym next) nextQuery.reversed
            else
              let prev := env.oprev e
              let prevQuery := env.edgeSideQuery prev point
              if prevQuery.is_on_right_side_or_on_line then
                locateLoop env point fuel (env.sym prev) prevQuery.reversed
              else
                if curQuery.is_on_line then .found (.onEdge e)
                else .found (.inTriangle (env.face e))
    else .assertViolation

/-- Embedding of `locate_with_hint_fixed`: take the stored outgoing edge of
the start vertex (panic when isolated), establish the invariant that the
query point is not on the right of the current edge, and walk. -/
def locate_with_hint_fixed (env : WalkEnv) (point : Point2) (start : Nat)
    (fuel : Nat) : LocateOutcome :=
  match env.outEdge start with
  | none => .isolatedStart
  | some e0 =>
    let q0 := env.edgeSideQuery e0 point
    if q0.is_on_right_side then locateLoop env point fuel (env.sym e0) q0.reversed
    else locateLoop env point fuel e0 q0

/-- A stored vertex: position together with the rest of the user payload
(`HasPosition` exposes exactly the position). -/
structure Vertex2 where
  pos : Point2
  data : Nat
deriving DecidableEq

/-- The triangulation state visible to the claims: the vertex arena (the
index is the fixed vertex handle), the `all_points_on_line` degeneracy
flag, the read-only DCEL navigation, the locate-structure lookup
(`find_close_handle`, modelled from the spec contract of §4.5) and the
entries inserted into the locate structure. -/
structure Tri where
  verts : List Vertex2
  allOnLine : Bool
  env : WalkEnv
  findClose : Point2 → Nat
  locateEntries : List (Point2 × Nat)

/-- Embedding of `get_default_hint`: ask the locate structure for a close
handle and fall back to vertex `0` when it is out of range. -/
def get_default_hint (tri : Tri) (point : Point2) : Nat :=
  let hint := tri.findClose point
  if hint < tri.verts.length then hint else 0

/-- Embedding of `locate_with_hint_option_fixed`: in the degenerate
collinear state the answer is always `NoTriangulationPresent`; otherwise
the walk starts from the hint or from the default hint. -/
def locate_with_hint_option_fixed (tri : Tri) (point : Point2)
    (hint : Option Nat) (fuel : Nat) : LocateOutcome :=
  if tri.allOnLine then .found .noTriangulationPresent
  else
    let start := hint.getD (get_default_hint tri point)
    locate_with_hint_fixed tri.env point start fuel

/-- Embedding of `update_vertex`: replace the payload of a vertex in place. -/
def update_vertex (v : Nat) (t : Vertex2) (tri : Tri) : Tri :=
  { tri with verts := tri.verts.set v t }

/-- Embedding of `insert_vertex`: append an isolated vertex and return its
new fixed handle. -/
def insert_vertex (t : Vertex2) (tri : Tri) : Nat × Tri :=
  (tri.verts.length, { tri with verts := tri.verts ++ [t] })

/-- Embedding of `insert_vertex_entry` on the locate structure. -/
def insert_vertex_entry (p : Point2) (h : Nat) (tri : Tri) : Tri :=
  { tri with locateEntries := tri.locateEntries ++ [(p, h)] }

/-- The topological insertion routines that `insert_with_hint_option`
dispatches to.  They mutate the DCEL through storage primitives that are
not among the provided sources, so they are taken as parameters: every
theorem below holds for an arbitrary implementation.  `breakLine` is the
branch of `initial_insertion` that builds the first fan of triangles when
a new point breaks collinearity. -/
structure InsertHandlers where
  outsideConvexHull : Nat → Vertex2 → Tri → Nat × Tri
  intoTriangle : Nat → Vertex2 → Tri → Nat × Tri
  onEdgeCase : Nat → Vertex2 → Tri → Nat × Tri
  breakLine : Vertex2 → Tri → Nat × Tri

/-- Embedding of `initial_insertion` (the degenerate-state path): scan the
vertices for one with the same position and update it (returning `Err`),
otherwise insert the vertex, either unconditionally when at most one vertex
exists or when the new position is collinear with the chain through the
first two vertices; a point that breaks collinearity goes to the
`breakLine` handler.  `Sum.inl` plays the role of `Ok`, `Sum.inr` of
`Err`. -/
def initial_insertion (H : InsertHandlers) (t : Vertex2) (tri : Tri) :
    Sum (Nat × Tri) (Nat × Tri) :=
  match tri.verts.findIdx? (fun w => decide (w.pos = t.pos)) with
  | some v => .inr (v, update_vertex v t tri)
  | none =>
    if tri.verts.length ≤ 1 then .inl (insert_vertex t tri)
    else
      let p0 := (tri.verts.getD 0 ⟨⟨0, 0⟩, 0⟩).pos
      let p1 := (tri.verts.getD 1 ⟨⟨0, 0⟩, 0⟩).pos
      if (side_query p0 p1 t.pos).is_on_line then .inl (insert_vertex t tri)
      else .inl (H.breakLine t tri)

/-- Embedding of `insert_with_hint_option`: locate the position of the new
payload, dispatch on the answer, and register the new handle in the locate
structure on the `Ok` path only.  A walk that panics or exhausts its fuel
yields `none` (the source would panic or diverge). -/
def insert_with_hint_option (H : InsertHandlers) (fuel : Nat) (t : Vertex2)
    (hint : Option Nat) (tri : Tri) : Option (Nat × Tri) :=
  match locate_with_hint_option_fixed tri t.pos hint fuel with
  | .found pit =>
    let insertionResult : Sum (Nat × Tri) (Nat × Tri) :=
      match pit with
      | .outsideConvexHull e => .inl (H.outsideConvexHull e t tri)
      | .inTriangle f => .inl (H.intoTriangle f t tri)
      | .onEdge e => .inl (H.onEdgeCase e t tri)
      | .onPoint v => .inr (v, update_vertex v t tri)
      | .noTriangulationPresent => initial_insertion H t tri
    match insertionResult with
    | .inl (h, tri2) => some (h, insert_vertex_entry t.pos h tri2)
    | .inr (v, tri2) => some (v, tri2)
  | _ => none

/-- The mesh observations and edits used by `legalize_edges`, over an
abstract mutable mesh state `D`.  The reads mirror the handle navigation
of the source; `flip_cw` is the DCEL flip, not among the provided sources,
so it is a parameter and the theorems hold for every implementation.
`symFix` is state independent, as the twin pairing of a directed edge pair
never changes. -/
structure LegalizeEnv (D : Type) where
  symFix : Nat → Nat
  faceFix : D → Nat → Nat
  fromPos : D → Nat → Point2
  toPos : D → Nat → Point2
  cwToPos : D → Nat → Point2
  symONext : D → Nat → Nat
  symOPrev : D → Nat → Nat
  is_defined_legal : Nat → Bool
  flip_cw : D → Nat → D

/-- Embedding of `is_ch_edge`: the edge or its twin borders the outer face
(fixed face handle `0`). -/
def is_ch_edge {D : Type} (env : LegalizeEnv D) (d : D) (e : Nat) : Bool :=
  (env.faceFix d e == 0) || (env.faceFix d (env.symFix e) == 0)

/-- Embedding of the `legalize_edges` loop.  The stack is a list whose head
is the top; each pop consumes one unit of fuel.  Besides the final mesh
state the function returns, for each executed flip, the mesh state at the
moment of the flip together with the flipped edge, so that the guard the
source evaluates can be stated about exactly that state. -/
def legalize_edges {D : Type} (env : LegalizeEnv D) (position : Point2) :
    Nat → D → List Nat → D × List (D × Nat)
  | _, d, [] => (d, [])
  | 0, d, _ :: _ => (d, [])
  | fuel + 1, d, e :: rest =>
    if (!is_ch_edge env d e && !env.is_defined_legal e) = true then
      let v0 := env.fromPos d e
      let v1 := env.toPos d e
      let v2 := env.cwToPos d e
      let e1 := env.symONext d e
      let e2 := env.symOPrev d e
      if contained_in_circumference v1 v2 v0 position then
        let r := legalize_edges env position fuel (env.flip_cw d e) (e2 :: e1 :: rest)
        (r.1, (d, e) :: r.2)
      else legalize_edges env position fuel d rest
    else legalize_edges env position fuel d rest

/-- The mesh observations and edits used by `fill_hole`, over an abstract
mutable mesh state `D`.  `create_face` and `flip_cw` mutate the DCEL
through storage primitives that are not among the provided sources, so
they are parameters. -/
structure FillEnv (D : Type) where
  symFix : Nat → Nat
  fromPos : D → Nat → Point2
  toPos : D → Nat → Point2
  ccwToPos : D → Nat → Point2
  cwToPos : D → Nat → Point2
  cwFix : D → Nat → Nat
  ccwFix : D → Nat → Nat
  symCwFix : D → Nat → Nat
  symCcwFix : D → Nat → Nat
  create_face : D → Nat → Nat → Nat × D
  flip_cw : D → Nat → D

/-- Embedding of the legalization loop at the end of `fill_hole`.  For each
popped edge the function records the mesh state at examination time, the
edge, and whether it was flipped; a flip happens exactly when
`contained_in_circumference(v0, v1, vl, vr)` is `false`, and the four
surrounding edges not in the border set are pushed again. -/
def fill_hole_legalize {D : Type} (env : FillEnv D) (border : List Nat) :
    Nat → D → List Nat → D × List (D × Nat × Bool)
  | _, d, [] => (d, [])
  | 0, d, _ :: _ => (d, [])
  | fuel + 1, d, e :: rest =>
    let v0 := env.fromPos d e
    let v1 := env.toPos d e
    let vl := env.ccwToPos d e
    let vr := env.cwToPos d e
    let e1 := env.cwFix d e
    let e2 := env.ccwFix d e
    let e3 := env.symCwFix d e
    let e4 := env.symCcwFix d e
    if contained_in_circumference v0 v1 vl vr then
      let r := fill_hole_legalize env border fuel d rest
      (r.1, (d, e, false) :: r.2)
    else
      let d2 := env.flip_cw d e
      let pushes := ([e1, e2, e3, e4].filter (fun x => !border.contains x)).reverse
      let r := fill_hole_legalize env border fuel d2 (pushes ++ rest)
      (r.1, (d, e, true) :: r.2)

/-- Embedding of `fill_hole`: collect the border set (each loop edge and
its twin), fan-triangulate the hole by `create_face` from the last loop
edge to each of `loop_edges[2 ..= len-2]`, then run the legalization loop
over the newly created diagonals (popped in reverse creation order).  An
empty edge loop would panic in the source; here no edge is examined. -/
def fill_hole {D : Type} (env : FillEnv D) (fuel : Nat) (d : D)
    (loopEdges : List Nat) : D × List (D × Nat × Bool) :=
  let border := loopEdges ++ loopEdges.map env.symFix
  match loopEdges.getLast? with
  | none => (d, [])
  | some lastEdge =>
    let created := (List.range' 2 (loopEdges.length - 3)).foldl
      (fun (acc : D × List Nat) i =>
        let r := env.create_face acc.1 lastEdge (loopEdges.getD i 0)
        (r.2, acc.2 ++ [r.1]))
      (d, [])
    fill_hole_legalize env border fuel created.1 created.2.reverse

/-- Navigation of a mesh without edges: every vertex is isolated. -/
def envNone : WalkEnv :=
  ⟨fun _ => none, id, id, id, fun _ => 0, fun _ => 0, fun _ => ⟨0, 0⟩⟩

/-- Concrete handlers for the parametrized insertion branches, used only to
instantiate closed theorems whose runs never reach these branches. -/
def trivialHandlers : InsertHandlers :=
  { outsideConvexHull := fun _ t tri => insert_vertex t tri
    intoTriangle := fun _ t tri => insert_vertex t tri
    onEdgeCase := fun _ t tri => insert_vertex t tri
    breakLine := fun t tri => insert_vertex t tri }

/-- The state reached by inserting `(0, 0)` into a new triangulation: one
vertex, still degenerate, one locate entry. -/
def tri1 : Tri :=
  { verts := [⟨⟨0, 0⟩, 0⟩]
    allOnLine := true
    env := envNone
    findClose := fun _ => 0
    locateEntries := [(⟨0, 0⟩, 0)] }

/-- The state reached by further inserting `(5, 0)` into `tri1`: two
collinear vertices, still degenerate. -/
def tri2 : Tri :=
  { verts := [⟨⟨0, 0⟩, 0⟩, ⟨⟨5, 0⟩, 0⟩]
    allOnLine := true
    env := envNone
    findClose := fun _ => 0
    locateEntries := [(⟨0, 0⟩, 0), (⟨5, 0⟩, 1)] }

/-- Navigation of a concrete one-triangle mesh with vertices `0 : (0,0)`,
`1 : (4,0)`, `2 : (0,4)`.  Directed edges `0, 2, 4` bound the inner face
`1` counterclockwise, their twins `1, 3, 5` bound the outer face `0`; the
twin of `e` is `e XOR 1`. -/
def envTriangle : WalkEnv :=
  { outEdge := fun v =>
      if v = 0 then some 0 else if v = 1 then some 2 else if v = 2 then some 4 else none
    sym := fun e => e ^^^ 1
    onext := fun e =>
      match e with
      | 0 => 2 | 2 => 4 | 4 => 0
      | 1 => 5 | 5 => 3 | 3 => 1
      | _ => 0
    oprev := fun e =>
      match e with
      | 0 => 4 | 2 => 0 | 4 => 2
      | 1 => 3 | 5 => 1 | 3 => 5
      | _ => 0
    face := fun e => if e % 2 = 0 then 1 else 0
    fromId := fun e =>
      match e with
      | 0 => 0 | 1 => 1 | 2 => 1 | 3 => 2 | 4 => 2 | 5 => 0
      | _ => 0
    vpos := fun v =>
      if v = 0 then ⟨0, 0⟩ else if v = 1 then ⟨4, 0⟩ else if v = 2 then ⟨0, 4⟩ else ⟨0, 0⟩ }

/-- The non-degenerate triangulation over `envTriangle`. -/
def triTriangle : Tri :=
  { verts := [⟨⟨0, 0⟩, 0⟩, ⟨⟨4, 0⟩, 1⟩, ⟨⟨0, 4⟩, 2⟩]
    allOnLine := false
    env := envTriangle
    findClose := fun _ => 0
    locateEntries := [(⟨0, 0⟩, 0), (⟨4, 0⟩, 1), (⟨0, 4⟩, 2)] }

/-- A degenerate legalization environment over the unit state, whose single
candidate edge reads the triangle `(0,0), (2,0), (0,2)` with the new point
`(1, 1)` strictly inside its circumcircle, so `legalize_edges` flips it. -/
def legalizeEnvDemo : LegalizeEnv Unit :=
  { symFix := id
    faceFix := fun _ _ => 1
    fromPos := fun _ _ => ⟨0, 2⟩
    toPos := fun _ _ => ⟨0, 0⟩
    cwToPos := fun _ _ => ⟨2, 0⟩
    symONext := fun _ _ => 7
    symOPrev := fun _ _ => 8
    is_defined_legal := fun _ => false
    flip_cw := fun d _ => d }

/-- A hole-filling environment over the unit state whose single created
diagonal `100` has the left triangle `(0,0), (2,0), (0,2)` and the
opposite vertex `(1, 1)`, which lies strictly inside that triangle's
circumcircle (center `(1,1)`, squared radius `2`). -/
def fillEnvInside : FillEnv Unit :=
  { symFix := id
    fromPos := fun _ _ => ⟨0, 0⟩
    toPos := fun _ _ => ⟨2, 0⟩
    ccwToPos := fun _ _ => ⟨0, 2⟩
    cwToPos := fun _ _ => ⟨1, 1⟩
    cwFix := fun _ _ => 10
    ccwFix := fun _ _ => 11
    symCwFix := fun _ _ => 12
    symCcwFix := fun _ _ => 13
    create_face := fun _ _ _ => (100, ())
    flip_cw := fun d _ => d }

/-- The same hole-filling environment with the opposite vertex moved to
`(5, 5)`, strictly outside the circumcircle, so the diagonal is flipped;
the four re-pushed edges are all border edges, so the loop stops. -/
def fillEnvOutside : FillEnv Unit :=
  { symFix := id
    fromPos := fun _ _ => ⟨0, 0⟩
    toPos := fun _ _ => ⟨2, 0⟩
    ccwToPos := fun _ _ => ⟨0, 2⟩
    cwToPos := fun _ _ => ⟨5, 5⟩
    cwFix := fun _ _ => 10
    ccwFix := fun _ _ => 11
    symCwFix := fun _ _ => 12
    symCcwFix := fun _ _ => 13
    create_face := fun _ _ _ => (100, ())
    flip_cw := fun d _ => d }

/-- A concrete DCEL of the same one-triangle mesh as `envTriangle`, laid
out as storage records for the handle-level claims. -/
def dcelTriangle : Dcel :=
  { halfEdges :=
      [⟨0, 2, 4, 1⟩, ⟨1, 5, 3, 0⟩, ⟨1, 4, 0, 1⟩, ⟨2, 1, 5, 0⟩, ⟨2, 0, 2, 1⟩, ⟨0, 3, 1, 0⟩] }

/-- Swapping the outer arguments negates the lifted determinant, so the
argument swap performed by `contained_in_circumference` makes it test for
the positive sign of the determinant in the order it was given. -/
lemma incircleDet_swap (a b c p : Point2) : incircleDet c b a p = -incircleDet a b c p := by
  unfold incircleDet
  ring

/-- The incircle test is the strict sign of the lifted determinant. -/
lemma contained_iff_det (v1 v2 v3 p : Point2) :
    contained_in_circumference v1 v2 v3 p = true ↔ 0 < incircleDet v1 v2 v3 p := by
  unfold contained_in_circumference
  rw [incircleDet_swap v1 v2 v3 p]
  simp only [decide_eq_true_eq]
  constructor <;> intro h <;> linarith

/-- For a counterclockwise triangle inscribed in the circle with center
`(ox / ow, oy / ow)` and scaled squared radius `r2`, the incircle test
holds exactly for query points strictly inside that circle. -/
lemma contained_iff_inside (v1 v2 v3 p : Point2) (ow ox oy r2 : ℤ)
    (how : ow ≠ 0) (hccw : 0 < orient2d v1 v2 v3)
    (h1 : distScaled ow ox oy v1 = r2) (h2 : distScaled ow ox oy v2 = r2)
    (h3 : distScaled ow ox oy v3 = r2) :
    (contained_in_circumference v1 v2 v3 p = true ↔ distScaled ow ox oy p < r2) := by
  rw [contained_iff_det]
  have key := incircleDet_circum v1 v2 v3 p ow ox oy r2 h1 h2 h3
  have hw2 : (0 : ℤ) < ow ^ 2 := by positivity
  constructor
  · intro h
    nlinarith [mul_pos hw2 h]
  · intro h
    nlinarith [mul_pos hccw (show (0 : ℤ) < r2 - distScaled ow ox oy p by linarith)]

/-- A point exactly on the circle through a nondegenerate triangle is not
reported as contained. -/
lemma contained_on_circle (v1 v2 v3 p : Point2) (ow ox oy r2 : ℤ)
    (how : ow ≠ 0) (hccw : 0 < orient2d v1 v2 v3)
    (h1 : distScaled ow ox oy v1 = r2) (h2 : distScaled ow ox oy v2 = r2)
    (h3 : distScaled ow ox oy v3 = r2) (hp : distScaled ow ox oy p = r2) :
    contained_in_circumference v1 v2 v3 p = false := by
  have hiff := contained_iff_inside v1 v2 v3 p ow ox oy r2 how hccw h1 h2 h3
  cases hb : contained_in_circumference v1 v2 v3 p
  · rfl
  · exact absurd (hiff.mp hb) (by omega)

/-- C6: for `v1 v2 v3` ordered counterclockwise (and inscribed in the
circle with center `(ox / ow, oy / ow)` and squared radius `r2 / ow ^ 2` —
for integer points the circumcenter is always such a rational point),
`contained_in_circumference v1 v2 v3 p` is `true` exactly when the lifted
4×4 determinant is strictly positive, which happens exactly when `p` is
strictly inside that circumcircle; a point exactly on the circle is
reported as not contained. -/
theorem C6_incircle_strict (v1 v2 v3 p : Point2) (ow ox oy r2 : ℤ)
    (how : ow ≠ 0) (hccw : 0 < orient2d v1 v2 v3)
    (h1 : distScaled ow ox oy v1 = r2) (h2 : distScaled ow ox oy v2 = r2)
    (h3 : distScaled ow ox oy v3 = r2) :
    (contained_in_circumference v1 v2 v3 p = true ↔ 0 < incircleDet v1 v2 v3 p)
    ∧ (contained_in_circumference v1 v2 v3 p = true ↔ distScaled ow ox oy p < r2)
    ∧ (distScaled ow ox oy p = r2 → contained_in_circumference v1 v2 v3 p = false) :=
  ⟨contained_iff_det v1 v2 v3 p,
   contained_iff_inside v1 v2 v3 p ow ox oy r2 how hccw h1 h2 h3,
   contained_on_circle v1 v2 v3 p ow ox oy r2 how hccw h1 h2 h3⟩

/-- Witness for C6 at the triangle `(0,0), (2,0), (0,2)` with circumcircle
centered `(1,1)` of squared radius `2`: the center is strictly inside, and
the cocircular point `(2,2)` is not contained. -/
theorem C6_incircle_strict_witness :
    ((1 : ℤ) ≠ 0 ∧ 0 < orient2d ⟨0, 0⟩ ⟨2, 0⟩ ⟨0, 2⟩
      ∧ distScaled 1 1 1 ⟨0, 0⟩ = 2 ∧ distScaled 1 1 1 ⟨2, 0⟩ = 2
      ∧ distScaled 1 1 1 ⟨0, 2⟩ = 2)
    ∧ (contained_in_circumference ⟨0, 0⟩ ⟨2, 0⟩ ⟨0, 2⟩ ⟨1, 1⟩ = true ↔
        distScaled 1 1 1 ⟨1, 1⟩ < 2)
    ∧ (distScaled 1 1 1 ⟨2, 2⟩ = 2 → contained_in_circumference ⟨0, 0⟩ ⟨2, 0⟩ ⟨0, 2⟩ ⟨2, 2⟩ = false) :=
  ⟨by decide,
   (C6_incircle_strict ⟨0, 0⟩ ⟨2, 0⟩ ⟨0, 2⟩ ⟨1, 1⟩ 1 1 1 2 (by decide) (by decide)
      (by decide) (by decide) (by decide)).2.1,
   (C6_incircle_strict ⟨0, 0⟩ ⟨2, 0⟩ ⟨0, 2⟩ ⟨2, 2⟩ 1 1 1 2 (by decide) (by decide)
      (by decide) (by decide) (by decide)).2.2⟩

/-- Flipping the lowest bit changes every natural number. -/
lemma xor_one_ne (n : Nat) : n ^^^ 1 ≠ n := by
  intro h
  have h2 := congrArg (fun m => m.testBit 0) h
  simp [Nat.testBit_xor] at h2
  omega

/-- C7: the twin/undirected bit encoding round-trips: `rev` is XOR with 1,
is an involution without fixed points, `as_undirected` drops the low bit,
`as_directed` appends a zero low bit, yields a normalized handle, and is a
right inverse of `as_undirected`. -/
theorem C7_handle_bit_encoding (e : FixedDirectedEdgeHandle) (u : FixedUndirectedEdgeHandle) :
    e.rev.index = e.index ^^^ 1
    ∧ e.rev.rev = e
    ∧ decide (e.rev = e) = false
    ∧ e.as_undirected.index = e.index >>> 1
    ∧ u.as_directed.index = u.index <<< 1
    ∧ u.as_directed.is_normalized = true
    ∧ u.as_directed.as_undirected = u := by
  refine ⟨rfl, ?_, ?_, rfl, rfl, ?_, ?_⟩
  · show (⟨e.index ^^^ 1 ^^^ 1⟩ : FixedDirectedEdgeHandle) = e
    rw [Nat.xor_assoc]
    simp
  · rw [decide_eq_false_iff_not]
    intro h
    exact xor_one_ne e.index (congrArg FixedDirectedEdgeHandle.index h)
  · show (u.index <<< 1 &&& 1 == 0) = true
    simp only [Nat.shiftLeft_eq, Nat.and_one_is_mod, beq_iff_eq]
    omega
  · show (⟨u.index <<< 1 >>> 1⟩ : FixedUndirectedEdgeHandle) = u
    rw [Nat.shiftLeft_eq, Nat.shiftRight_eq_div_pow]
    congr 1
    exact Nat.mul_div_cancel u.index (by norm_num)

/-- C9: reversing a point projection swaps the before-edge and after-edge
predicates and preserves the on-edge predicate, over any ordered scalar
field. -/
theorem C9_projection_reversed {S : Type} [LinearOrderedField S] (s : PointProjection S) :
    s.reversed.is_before_edge = s.is_after_edge
    ∧ s.reversed.is_after_edge = s.is_before_edge
    ∧ s.reversed.is_on_edge = s.is_on_edge := by
  have h1 : s.reversed.is_before_edge = s.is_after_edge := by
    simp only [PointProjection.reversed, PointProjection.is_before_edge,
      PointProjection.is_after_edge, decide_eq_decide, gt_iff_lt]
    constructor <;> intro h <;> linarith
  have h2 : s.reversed.is_after_edge = s.is_before_edge := by
    simp only [PointProjection.reversed, PointProjection.is_before_edge,
      PointProjection.is_after_edge, decide_eq_decide, gt_iff_lt]
    constructor <;> intro h <;> linarith
  refine ⟨h1, h2, ?_⟩
  simp only [PointProjection.is_on_edge, h1, h2, Bool.and_comm]

/-- Witness for C9 at a concrete rational projection. -/
theorem C9_projection_reversed_witness :
    (PointProjection.mk (3 : ℚ) 1).reversed.is_before_edge =
        (PointProjection.mk (3 : ℚ) 1).is_after_edge
    ∧ (PointProjection.mk (3 : ℚ) 1).reversed.is_after_edge =
        (PointProjection.mk (3 : ℚ) 1).is_before_edge
    ∧ (PointProjection.mk (3 : ℚ) 1).reversed.is_on_edge =
        (PointProjection.mk (3 : ℚ) 1).is_on_edge :=
  C9_projection_reversed ⟨3, 1⟩

/-- C10: `opposite_vertex` returns `none` exactly when the edge's own
incident face is the outer face (fixed handle 0); whenever the own face is
inner — in particular for a hull edge whose reversed half borders the
outer face — it returns the origin of the previous edge. -/
theorem C10_opposite_vertex (d : Dcel) (e : Nat) :
    (d.opposite_vertex e = none ↔ (d.half_edge e).face = 0)
    ∧ ((d.half_edge e).face ≠ 0 →
        d.opposite_vertex e = some (d.half_edge (d.half_edge e).prev).origin) := by
  unfold Dcel.opposite_vertex Dcel.is_outer_edge
  by_cases h : (d.half_edge e).face = 0 <;> simp [h]

/-- Witness for C10 on a concrete triangle mesh: directed edge 0 has inner
face 1 while its twin (edge 1) borders the outer face, and
`opposite_vertex` still returns the third vertex 2. -/
theorem C10_opposite_vertex_witness :
    (dcelTriangle.half_edge 0).face ≠ 0
    ∧ (dcelTriangle.half_edge 1).face = 0
    ∧ dcelTriangle.opposite_vertex 0 =
        some (dcelTriangle.half_edge (dcelTriangle.half_edge 0).prev).origin
    ∧ dcelTriangle.opposite_vertex 0 = some 2 :=
  ⟨by decide, by decide, (C10_opposite_vertex dcelTriangle 0).2 (by decide), by decide⟩

/-- Reversing a side classification that is on the right or on the line
yields one that is on the left or on the line. -/
lemma reversed_left_of_right_or_line :
    ∀ q : LineSideInfo, q.is_on_right_side_or_on_line = true →
      q.reversed.is_on_left_side_or_on_line = true := by
  intro q h
  cases q <;> simp_all [LineSideInfo.reversed, LineSideInfo.is_on_left_side_or_on_line,
    LineSideInfo.is_on_right_side_or_on_line, LineSideInfo.is_on_left_side,
    LineSideInfo.is_on_right_side, LineSideInfo.is_on_line]

/-- Reversing a side classification that is strictly on the right yields
one that is on the left or on the line. -/
lemma reversed_left_of_right :
    ∀ q : LineSideInfo, q.is_on_right_side = true →
      q.reversed.is_on_left_side_or_on_line = true := by
  intro q h
  cases q <;> simp_all [LineSideInfo.reversed, LineSideInfo.is_on_left_side_or_on_line,
    LineSideInfo.is_on_left_side, LineSideInfo.is_on_right_side, LineSideInfo.is_on_line]

/-- A side classification that is not strictly on the right is on the left
or on the line. -/
lemma left_of_not_right :
    ∀ q : LineSideInfo, q.is_on_right_side = false →
      q.is_on_left_side_or_on_line = true := by
  intro q h
  cases q <;> simp_all [LineSideInfo.is_on_left_side_or_on_line,
    LineSideInfo.is_on_left_side, LineSideInfo.is_on_right_side, LineSideInfo.is_on_line]

/-- The walking loop never reaches the assertion failure as long as the
stored side query of the current edge is not strictly on the right: the
loop only ever stores reversed copies of right-or-on-line queries. -/
lemma locateLoop_no_assert (env : WalkEnv) (point : Point2) :
    ∀ fuel e q, q.is_on_left_side_or_on_line = true →
      locateLoop env point fuel e q ≠ .assertViolation := by
  intro fuel
  induction fuel with
  | zero =>
    intro e q hq
    simp [locateLoop]
  | succ n ih =>
    intro e q hq
    simp only [locateLoop, hq, if_true]
    split
    · simp
    · split
      · simp
      · split
        · simp
        · split
          · exact ih _ _ (reversed_left_of_right_or_line _ (by assumption))
          · split
            · exact ih _ _ (reversed_left_of_right_or_line _ (by assumption))
            · split <;> simp

/-- The entry of the walk establishes the loop invariant, so the walk as a
whole never reaches the assertion failure. -/
lemma locate_with_hint_fixed_ne_assert (env : WalkEnv) (point : Point2)
    (start fuel : Nat) :
    locate_with_hint_fixed env point start fuel ≠ .assertViolation := by
  unfold locate_with_hint_fixed
  cases houte : env.outEdge start with
  | none => simp
  | some e0 =>
    simp only
    split
    · exact locateLoop_no_assert env point fuel _ _
        (reversed_left_of_right _ (by assumption))
    · refine locateLoop_no_assert env point fuel _ _ (left_of_not_right _ ?_)
      rename_i h
      simpa using h

/-- C4: the `assert!` at the head of every iteration of the walking loop of
`locate_with_hint_fixed` never fails: for every navigation environment,
query point, start vertex and step budget the outcome is never
`assertViolation` (an isolated start vertex trips the earlier `expect`,
not the assertion). -/
theorem C4_walk_invariant (env : WalkEnv) (point : Point2) (start fuel : Nat) :
    (locate_with_hint_fixed env point start fuel).is_assert_violation = false := by
  have hne := locate_with_hint_fixed_ne_assert env point start fuel
  cases hx : locate_with_hint_fixed env point start fuel
  case assertViolation => exact absurd hx hne
  all_goals rfl

/-- C8: whenever the degeneracy flag `all_points_on_line` is set, locate
answers `NoTriangulationPresent` for every query point, every hint and
every step budget — including a query equal to a stored vertex position. -/
theorem C8_degenerate_locate (tri : Tri) (point : Point2) (hint : Option Nat)
    (fuel : Nat) (h : tri.allOnLine = true) :
    locate_with_hint_option_fixed tri point hint fuel = .found .noTriangulationPresent := by
  simp [locate_with_hint_option_fixed, h]

/-- Witness for C8: a degenerate two-vertex chain queried exactly at the
stored vertex position `(0, 0)`. -/
theorem C8_degenerate_locate_witness :
    tri2.allOnLine = true
    ∧ locate_with_hint_option_fixed tri2 ⟨0, 0⟩ none 5 = .found .noTriangulationPresent :=
  ⟨rfl, C8_degenerate_locate tri2 ⟨0, 0⟩ none 5 rfl⟩

/-- C5: every invocation of `flip_cw` performed by the `legalize_edges`
loop — over any mesh state type, any navigation, any flip implementation,
any new-point position, any initial stack, and any step budget — happens
on an edge that, in the mesh state at the moment of the flip, is neither a
convex-hull edge nor declared defined-legal. -/
theorem C5_legalize_guard {D : Type} (env : LegalizeEnv D) (position : Point2)
    (fuel : Nat) (d : D) (stack : List Nat) (ev : D × Nat)
    (hev : ev ∈ (legalize_edges env position fuel d stack).2) :
    is_ch_edge env ev.1 ev.2 = false ∧ env.is_defined_legal ev.2 = false := by
  induction fuel generalizing d stack with
  | zero =>
    cases stack with
    | nil => simp [legalize_edges] at hev
    | cons e rest => simp [legalize_edges] at hev
  | succ n ih =>
    cases stack with
    | nil => simp [legalize_edges] at hev
    | cons e rest =>
      simp only [legalize_edges] at hev
      split at hev
      · rename_i hg
        rw [Bool.and_eq_true, Bool.not_eq_true', Bool.not_eq_true'] at hg
        split at hev
        · simp only [List.mem_cons] at hev
          rcases hev with rfl | hev
          · exact hg
          · exact ih _ _ hev
        · exact ih _ _ hev
      · exact ih _ _ hev

/-- Witness for C5: the demo environment flips its single candidate edge,
and that edge is neither a hull edge nor defined-legal. -/
theorem C5_legalize_guard_witness :
    ((), 0) ∈ (legalize_edges legalizeEnvDemo ⟨1, 1⟩ 1 () [0]).2
    ∧ (is_ch_edge legalizeEnvDemo () 0 = false
        ∧ legalizeEnvDemo.is_defined_legal 0 = false) :=
  ⟨by decide, C5_legalize_guard legalizeEnvDemo ⟨1, 1⟩ 1 () [0] ((), 0) (by decide)⟩

/-- Every examination event recorded by the hole legalization loop carries
the decision the code takes: flipped exactly when the incircle test on
`(v0, v1, vl, vr)` is negative. -/
lemma fill_hole_legalize_events {D : Type} (env : FillEnv D) (border : List Nat) :
    ∀ fuel d stack ev, ev ∈ (fill_hole_legalize env border fuel d stack).2 →
      ev.2.2 = !contained_in_circumference (env.fromPos ev.1 ev.2.1)
        (env.toPos ev.1 ev.2.1) (env.ccwToPos ev.1 ev.2.1) (env.cwToPos ev.1 ev.2.1) := by
  intro fuel
  induction fuel with
  | zero =>
    intro d stack ev hev
    cases stack with
    | nil => simp [fill_hole_legalize] at hev
    | cons e rest => simp [fill_hole_legalize] at hev
  | succ n ih =>
    intro d stack ev hev
    cases stack with
    | nil => simp [fill_hole_legalize] at hev
    | cons e rest =>
      simp only [fill_hole_legalize] at hev
      split at hev
      · rename_i hc
        simp only [List.mem_cons] at hev
        rcases hev with rfl | hev
        · simp [hc]
        · exact ih _ _ _ hev
      · rename_i hc
        simp only [List.mem_cons] at hev
        rcases hev with rfl | hev
        · have hcf : contained_in_circumference (env.fromPos d e) (env.toPos d e)
              (env.ccwToPos d e) (env.cwToPos d e) = false := by
            simpa using hc
          simp [hcf]
        · exact ih _ _ _ hev

/-- C2 (amended): every edge examined by the legalization phase of
`fill_hole` is flipped exactly when the opposite vertex `vr` does NOT lie
strictly inside the circumcircle of the triangle `(v0, v1, vl)` on the
edge's other side — the negation of the test the claim states, and of the
polarity `legalize_edges` uses with `contained_in_circumference`. -/
theorem C2_fill_hole_flip_amended {D : Type} (env : FillEnv D) (fuel : Nat)
    (d : D) (loopEdges : List Nat) (ev : D × Nat × Bool)
    (hev : ev ∈ (fill_hole env fuel d loopEdges).2) :
    (ev.2.2 = !contained_in_circumference (env.fromPos ev.1 ev.2.1)
        (env.toPos ev.1 ev.2.1) (env.ccwToPos ev.1 ev.2.1) (env.cwToPos ev.1 ev.2.1))
    ∧ (∀ ow ox oy r2 : ℤ, ow ≠ 0 →
        0 < orient2d (env.fromPos ev.1 ev.2.1) (env.toPos ev.1 ev.2.1)
            (env.ccwToPos ev.1 ev.2.1) →
        distScaled ow ox oy (env.fromPos ev.1 ev.2.1) = r2 →
        distScaled ow ox oy (env.toPos ev.1 ev.2.1) = r2 →
        distScaled ow ox oy (env.ccwToPos ev.1 ev.2.1) = r2 →
        (ev.2.2 = true ↔ ¬ distScaled ow ox oy (env.cwToPos ev.1 ev.2.1) < r2)) := by
  have hbase : ev.2.2 = !contained_in_circumference (env.fromPos ev.1 ev.2.1)
      (env.toPos ev.1 ev.2.1) (env.ccwToPos ev.1 ev.2.1) (env.cwToPos ev.1 ev.2.1) := by
    unfold fill_hole at hev
    split at hev
    · simp at hev
    · exact fill_hole_legalize_events env _ fuel _ _ ev hev
  refine ⟨hbase, ?_⟩
  intro ow ox oy r2 how hccw h1 h2 h3
  have hiff := contained_iff_inside (env.fromPos ev.1 ev.2.1) (env.toPos ev.1 ev.2.1)
    (env.ccwToPos ev.1 ev.2.1) (env.cwToPos ev.1 ev.2.1) ow ox oy r2 how hccw h1 h2 h3
  rw [hbase, Bool.not_eq_true']
  constructor
  · intro hf hd
    have hx := hiff.mpr hd
    rw [hf] at hx
    exact Bool.false_ne_true hx
  · intro hn
    cases hb : contained_in_circumference (env.fromPos ev.1 ev.2.1) (env.toPos ev.1 ev.2.1)
      (env.ccwToPos ev.1 ev.2.1) (env.cwToPos ev.1 ev.2.1)
    · rfl
    · exact absurd (hiff.mp hb) hn

/-- Counterexample to C2 as stated: in a concrete `fill_hole` run the
single created diagonal has its opposite vertex `(1, 1)` strictly inside
the circumcircle of the other side's triangle `(0,0), (2,0), (0,2)` —
center `(1, 1)`, squared radius `2` — yet the recorded decision is that
the edge is NOT flipped, contradicting "flipped iff strictly inside". -/
theorem C2_fill_hole_flip_counterexample :
    (fill_hole fillEnvInside 10 () [10, 11, 12, 13]).2 = [((), 100, false)]
    ∧ 0 < orient2d (fillEnvInside.fromPos () 100) (fillEnvInside.toPos () 100)
        (fillEnvInside.ccwToPos () 100)
    ∧ distScaled 1 1 1 (fillEnvInside.fromPos () 100) = 2
    ∧ distScaled 1 1 1 (fillEnvInside.toPos () 100) = 2
    ∧ distScaled 1 1 1 (fillEnvInside.ccwToPos () 100) = 2
    ∧ distScaled 1 1 1 (fillEnvInside.cwToPos () 100) < 2
    ∧ contained_in_circumference (fillEnvInside.fromPos () 100) (fillEnvInside.toPos () 100)
        (fillEnvInside.ccwToPos () 100) (fillEnvInside.cwToPos () 100) = true := by
  refine ⟨by decide, by decide, by decide, by decide, by decide, by decide, by decide⟩

/-- Witness for C2 (amended): in a concrete run whose opposite vertex
`(5, 5)` lies strictly outside the circumcircle the diagonal IS flipped,
and both conclusions of the amended theorem hold at that event. -/
theorem C2_fill_hole_flip_witness :
    (((), 100, true) ∈ (fill_hole fillEnvOutside 10 () [10, 11, 12, 13]).2)
    ∧ (((), 100, true) : Unit × Nat × Bool).2.2 =
        !contained_in_circumference (fillEnvOutside.fromPos () 100)
          (fillEnvOutside.toPos () 100) (fillEnvOutside.ccwToPos () 100)
          (fillEnvOutside.cwToPos () 100)
    ∧ ((((), 100, true) : Unit × Nat × Bool).2.2 = true ↔
        ¬ distScaled 1 1 1 (fillEnvOutside.cwToPos () 100) < 2) :=
  ⟨by decide,
   (C2_fill_hole_flip_amended fillEnvOutside 10 () [10, 11, 12, 13] ((), 100, true)
      (by decide)).1,
   (C2_fill_hole_flip_amended fillEnvOutside 10 () [10, 11, 12, 13] ((), 100, true)
      (by decide)).2 1 1 1 2 (by decide) (by decide) (by decide) (by decide) (by decide)⟩

/-- The walk is deterministic and the budget only truncates it: a run with
extra budget either agrees with the shorter run or the shorter run ran
out of fuel. -/
lemma locateLoop_mono (env : WalkEnv) (point : Point2) :
    ∀ fuel m e q,
      locateLoop env point (fuel + m) e q = locateLoop env point fuel e q
      ∨ locateLoop env point fuel e q = .fuelExhausted := by
  intro fuel
  induction fuel with
  | zero =>
    intro m e q
    right
    simp [locateLoop]
  | succ n ih =>
    intro m e q
    have hrw : n + 1 + m = (n + m) + 1 := by omega
    rw [hrw]
    simp only [locateLoop]
    split
    · split
      · left; rfl
      · split
        · left; rfl
        · split
          · left; rfl
          · split
            · exact ih m _ _
            · split
              · exact ih m _ _
              · split <;> (left; rfl)
    · left; rfl

/-- A `found` answer of the walking loop is stable under enlarging the
step budget. -/
lemma locateLoop_found_mono (env : WalkEnv) (point : Point2) (fuel m e : Nat)
    (q : LineSideInfo) (r : PositionInTriangulation)
    (h : locateLoop env point fuel e q = .found r) :
    locateLoop env point (fuel + m) e q = .found r := by
  rcases locateLoop_mono env point fuel m e q with heq | hex
  · rw [heq, h]
  · rw [h] at hex
    cases hex

/-- The full walk with extra budget agrees with the shorter run unless
the shorter run exhausted its budget. -/
lemma locate_with_hint_fixed_mono (env : WalkEnv) (point : Point2)
    (start fuel m : Nat) :
    locate_with_hint_fixed env point start (fuel + m) =
        locate_with_hint_fixed env point start fuel
    ∨ locate_with_hint_fixed env point start fuel = .fuelExhausted := by
  unfold locate_with_hint_fixed
  cases env.outEdge start with
  | none => left; rfl
  | some e0 =>
    simp only
    split
    · exact locateLoop_mono env point fuel m _ _
    · exact locateLoop_mono env point fuel m _ _

/-- A `found` answer of the full locate call is stable under enlarging the
step budget, so `locate_finds` captures the answer of the source's
unbounded loop. -/
lemma locate_with_hint_option_fixed_mono (tri : Tri) (point : Point2)
    (hint : Option Nat) (fuel m : Nat) (r : PositionInTriangulation)
    (h : locate_with_hint_option_fixed tri point hint fuel = .found r) :
    locate_with_hint_option_fixed tri point hint (fuel + m) = .found r := by
  unfold locate_with_hint_option_fixed at h ⊢
  by_cases hflag : tri.allOnLine
  · simp only [hflag, if_true] at h ⊢
    exact h
  · simp only [hflag, Bool.false_eq_true, if_false] at h ⊢
    rcases locate_with_hint_fixed_mono tri.env point
        (hint.getD (get_default_hint tri point)) fuel m with heq | hex
    · rw [heq]
      exact h
    · rw [h] at hex
      cases hex

/-- C3: inserting a payload whose position equals the position of an
already stored vertex `v` updates that vertex's payload in place, returns
`v`, keeps the vertex count, creates no vertex and adds no locate entry.
The first conjunct settles the degenerate collinear state, where
`initial_insertion` finds the first vertex with equal position; the second
settles every state in which locate reports `OnPoint v` (which the walk
does at an equal position, as the third, concrete, conjunct shows
end-to-end on a triangulated mesh). -/
theorem C3_duplicate_position_insert :
    (∀ (H : InsertHandlers) (fuel : Nat) (tri : Tri) (t : Vertex2) (v : Nat)
        (hint : Option Nat),
        tri.allOnLine = true →
        tri.verts.findIdx? (fun w => decide (w.pos = t.pos)) = some v →
        insert_with_hint_option H fuel t hint tri = some (v, update_vertex v t tri)
          ∧ (update_vertex v t tri).verts.length = tri.verts.length
          ∧ (update_vertex v t tri).locateEntries = tri.locateEntries)
    ∧ (∀ (H : InsertHandlers) (fuel : Nat) (tri : Tri) (t : Vertex2) (v : Nat)
        (hint : Option Nat),
        locate_with_hint_option_fixed tri t.pos hint fuel = .found (.onPoint v) →
        insert_with_hint_option H fuel t hint tri = some (v, update_vertex v t tri)
          ∧ (update_vertex v t tri).verts.length = tri.verts.length
          ∧ (update_vertex v t tri).locateEntries = tri.locateEntries)
    ∧ ((insert_with_hint_option trivialHandlers 10 ⟨⟨4, 0⟩, 99⟩ (some 0) triTriangle).map
          (fun r => (r.1, r.2.verts, r.2.locateEntries)) =
        some (1, [⟨⟨0, 0⟩, 0⟩, ⟨⟨4, 0⟩, 99⟩, ⟨⟨0, 4⟩, 2⟩], triTriangle.locateEntries)) := by
  refine ⟨?_, ?_, by decide⟩
  · intro H fuel tri t v hint hdeg hfind
    refine ⟨?_, by simp [update_vertex], rfl⟩
    simp only [insert_with_hint_option, locate_with_hint_option_fixed, hdeg, if_true,
      initial_insertion, hfind]
  · intro H fuel tri t v hint hloc
    refine ⟨?_, by simp [update_vertex], rfl⟩
    simp only [insert_with_hint_option, hloc]

/-- Witness for C3: re-inserting position `(0, 0)` with a fresh payload
into the degenerate one-vertex state updates vertex 0 in place. -/
theorem C3_duplicate_position_insert_witness :
    tri1.allOnLine = true
    ∧ tri1.verts.findIdx? (fun w => decide (w.pos = (⟨⟨0, 0⟩, 7⟩ : Vertex2).pos)) = some 0
    ∧ insert_with_hint_option trivialHandlers 10 ⟨⟨0, 0⟩, 7⟩ none tri1 =
        some (0, update_vertex 0 ⟨⟨0, 0⟩, 7⟩ tri1)
    ∧ (update_vertex 0 ⟨⟨0, 0⟩, 7⟩ tri1).verts.length = tri1.verts.length :=
  ⟨rfl, by decide,
   (C3_duplicate_position_insert.1 trivialHandlers 10 tri1 ⟨⟨0, 0⟩, 7⟩ 0 none rfl
      (by decide)).1,
   (C3_duplicate_position_insert.1 trivialHandlers 10 tri1 ⟨⟨0, 0⟩, 7⟩ 0 none rfl
      (by decide)).2.1⟩
